import Mathlib

/-!
The set-diff and deterministic-apply workflow of dbupdate.

A shallow embedding of `main.go` and `model.go`.

* A Go `string` is a sequence of bytes; it is modelled as the list of its byte
  values (`GoString`).  String literals of the source are written `str "..."`,
  which is the UTF-8 encoding of the literal.
* A Go `map[string]struct{}` is a set of keys that `range` enumerates in an
  unspecified order; it is modelled as the duplicate-free list of its keys in
  the order in which `range` yields them (`GoMap`).
* The database, the file system, the platform and the external client are
  the environment: their answers are the fields of `Env`, and the state they
  keep between calls is `World`.
-/

namespace DbUpdate

/-! ## Strings -/

/-- The bytes of a Go string. -/
abbrev GoString := List Nat

/-- The bytes of a source literal (its UTF-8 encoding). -/
def str (s : String) : GoString :=
  (s.data.flatMap String.utf8EncodeChar).map UInt8.toNat

/-- Go's `a < b` on strings: the first differing byte decides, and a proper
prefix is smaller. -/
def strLess : GoString → GoString → Bool
  | [], [] => false
  | [], _ :: _ => true
  | _ :: _, [] => false
  | a :: as, b :: bs =>
    if a < b then true else if b < a then false else strLess as bs

/-- The order `a ≤ b` of strings: `b` is not smaller than `a`. -/
def strLe (a b : GoString) : Prop := strLess b a = false

/-- One insertion step of `sortStrings`: `x` goes in front of the first
element that is not smaller than it. -/
def insertStr (x : GoString) : List GoString → List GoString
  | [] => [x]
  | y :: ys => if strLess y x then y :: insertStr x ys else x :: y :: ys

/-- The library call `sort.Strings(a)`: `a` rearranged into increasing order
of `strLess`.  The order is total and two strings that compare equal are the
same string, so every sorting algorithm returns this one list; it is computed
here by insertion. -/
def sortStrings : List GoString → List GoString
  | [] => []
  | x :: xs => insertStr x (sortStrings xs)

/-! ## Maps used as sets -/

/-- A `map[string]struct{}`: its keys, each once, in `range` order. -/
structure GoMap where
  keys : List GoString
  nodup : keys.Nodup
  deriving DecidableEq

namespace GoMap

/-- The result of `make(map[string]struct{})`. -/
def empty : GoMap := ⟨[], List.nodup_nil⟩

/-- The lookup `_, ok := m[k]`. -/
def has (m : GoMap) (k : GoString) : Bool := m.keys.contains k

/-- The assignment `m[k] = struct{}{}`. -/
def set (m : GoMap) (k : GoString) : GoMap :=
  if h : k ∈ m.keys then m
  else ⟨m.keys ++ [k], List.Nodup.append m.nodup (List.nodup_singleton k)
    (by
      intro a ha hk
      rw [List.mem_singleton] at hk
      exact h (hk ▸ ha))⟩

/-- The map obtained by assigning the given keys one after the other. -/
def ofList (ks : List GoString) : GoMap := ks.foldl set empty

/-- The value of `len(m)`. -/
def len (m : GoMap) : Nat := m.keys.length

end GoMap

/-! ## The diff engine -/

/-- `getNewChangeFile` of `main.go`: the local files that have no record, in
increasing order of name. -/
def getNewChangeFile (dbRecords localFiles : GoMap) : List GoString :=
  if dbRecords.len = 0 ∧ localFiles.len = 0 then
    []
  else
    -- diff localFiles and dbRecords
    let newFiles := localFiles.keys.foldl
      (fun newFiles f => if dbRecords.has f then newFiles else newFiles ++ [f]) []
    if newFiles.length = 0 then
      newFiles
    else
      -- sort by ascii
      sortStrings newFiles

/-! ## The inventory collector -/

/-- The values of `runtime.GOOS` that the source tells apart. -/
inductive GOOS where
  | linux
  | windows
  | other
  deriving DecidableEq

/-- What the source uses of an `os.FileInfo`: `Name()` and `IsDir()`. -/
structure FileInfo where
  name : GoString
  isDir : Bool
  deriving DecidableEq

/-- The library predicate `os.IsPathSeparator`: `/` everywhere, and also `\`
on Windows. -/
def isPathSeparator (goos : GOOS) (c : Nat) : Bool :=
  match goos with
  | .windows => c == 92 || c == 47
  | _ => c == 47

/-- The loop of the library function `filepath.Ext`, about to look at the byte
before position `i`: it walks down from the end of `path`, stops with no
extension at a path separator, and returns the rest of `path` from the first
dot it meets. -/
def extFrom (goos : GOOS) (path : GoString) : Nat → GoString
  | 0 => []
  | i + 1 =>
    if isPathSeparator goos (path.getD i 0) then []
    else if path.getD i 0 = 46 then path.drop i
    else extFrom goos path i

/-- The library function `filepath.Ext`. -/
def filepathExt (goos : GOOS) (path : GoString) : GoString :=
  extFrom goos path path.length

/-- The lower-case form of one ASCII byte. -/
def lowerByte (c : Nat) : Nat :=
  if 65 ≤ c ∧ c ≤ 90 then c + 32 else c

/-- The library function `strings.ToLower`.  A string of ASCII bytes has its
letters `A`..`Z` lowered byte by byte.  On any other string the library maps
`unicode.ToLower` over the decoded runes; that map is the parameter
`unicodeLower`. -/
def toLower (unicodeLower : GoString → GoString) (s : GoString) : GoString :=
  if s.all (fun c => decide (c < 128)) then s.map lowerByte else unicodeLower s

/-- `isSqlFile` of `main.go`. -/
def isSqlFile (goos : GOOS) (unicodeLower : GoString → GoString)
    (fileName : GoString) : Bool :=
  if fileName.length = 0 then
    false
  else
    let ext := filepathExt goos fileName
    toLower unicodeLower ext == str ".sql"

/-- The answers of everything outside the program during one run. -/
structure Env where
  /-- The value of `runtime.GOOS`. -/
  goos : GOOS
  /-- The library map of `unicode.ToLower` over a string. -/
  unicodeLower : GoString → GoString
  /-- The result of `ioutil.ReadDir(".")`; `none` is an error. -/
  readDir : Option (List FileInfo)
  /-- Whether the query `db.Find(&updates)` fails. -/
  findFails : Bool
  /-- For a query that fails: whether the row of this name was scanned into
  `updates` before the error. -/
  findScanned : GoString → Bool
  /-- Whether `filepath.Abs` returns an error for the file. -/
  absFails : GoString → Bool
  /-- Whether `cmd.Run()` returns no error for the file. -/
  cmdRun : GoString → Bool
  /-- Whether `db.Create(&record)` leaves no error for the file. -/
  dbCreate : GoString → Bool

/-- What the program writes. -/
inductive Line where
  /-- The line `[INFO] Nothing need update, Done.` -/
  | nothing
  /-- The log line `CMD: ...` of a file. -/
  | cmd (f : GoString)
  /-- The log line `[INFO] Imported File: ...` of a file. -/
  | imported (f : GoString)
  /-- The line `[OK] Success Import File Count: n`. -/
  | success (n : Nat)
  deriving DecidableEq

/-- The state outside the program that a run reads and changes. -/
structure World where
  /-- The `UpdateFile` of the rows of the records table, oldest first; an
  insert that succeeds stores the name as it is given. -/
  records : List GoString
  /-- The files on which the external client has been run, oldest first. -/
  invoked : List GoString
  /-- The lines written so far. -/
  out : List Line
  deriving DecidableEq

/-- How a call ends: it returns, or the process is ended by one of the
`log.Fatalf` calls or by the `panic` of the source. -/
inductive Outcome where
  | returned
  /-- `[ERR] Get File Path err` -/
  | fatalPath
  /-- `[ERROR] Unsupport OS` -/
  | fatalOS
  /-- `[ERROR] Error executing query` -/
  | fatalExec
  /-- `[ERROR] Ready success import db file, but save record fail` -/
  | fatalRecord
  /-- `Fatal error read change files` -/
  | panicReadDir
  deriving DecidableEq

/-- `getAlreadyUpdateFileList` of `main.go`.  The error of `db.Find` is not
looked at; a query that fails leaves in `updates` the rows that were scanned
before the error, which may be none. -/
def getAlreadyUpdateFileList (env : Env) (w : World) : GoMap :=
  let updates := if env.findFails then w.records.filter env.findScanned else w.records
  updates.foldl (fun alreadyUpdate update => alreadyUpdate.set update) GoMap.empty

/-- The loop of `getAllChangeFileList` over the directory listing. -/
def changeFilesOf (goos : GOOS) (unicodeLower : GoString → GoString)
    (list : List FileInfo) : GoMap :=
  list.foldl
    (fun changeFileList f =>
      if f.isDir then changeFileList
      else
        let tmpFileName := f.name
        if !isSqlFile goos unicodeLower tmpFileName then changeFileList
        else changeFileList.set tmpFileName)
    GoMap.empty

/-- `getAllChangeFileList` of `main.go`; `none` is the panic on a read
error. -/
def getAllChangeFileList (env : Env) : Option GoMap :=
  match env.readDir with
  | none => none
  | some list => some (changeFilesOf env.goos env.unicodeLower list)

/-! ## The applier -/

/-- The `for` loop of `doSqlUpdate`, from the file at the head of the list
on.  On Linux the command line is run by `/bin/sh -c`, on Windows by
`cmd /C`; the client reads the file as its input. -/
def doSqlUpdateLoop (env : Env) : List GoString → World → Outcome × World
  | [], w => (Outcome.returned, w)
  | f :: rest, w =>
    if env.absFails f then (Outcome.fatalPath, w)
    else
      match env.goos with
      | GOOS.other => (Outcome.fatalOS, w)
      | _ =>
        let w1 := { w with out := w.out ++ [Line.cmd f], invoked := w.invoked ++ [f] }
        if !env.cmdRun f then (Outcome.fatalExec, w1)
        else
          let w2 := { w1 with out := w1.out ++ [Line.imported f] }
          -- save record
          if !env.dbCreate f then (Outcome.fatalRecord, w2)
          else doSqlUpdateLoop env rest { w2 with records := w2.records ++ [f] }

/-- `doSqlUpdate` of `main.go`. -/
def doSqlUpdate (env : Env) (newFiles : List GoString) (w : World) : Outcome × World :=
  if newFiles.length = 0 then
    (Outcome.returned, w)
  else
    match doSqlUpdateLoop env newFiles w with
    | (Outcome.returned, w1) =>
      (Outcome.returned, { w1 with out := w1.out ++ [Line.success newFiles.length] })
    | r => r

/-- The value of `newUpdateFileList` in `update`: the pending sequence of
the run, when the directory can be read. -/
def newUpdateFileList (env : Env) (w : World) : Option (List GoString) :=
  match getAllChangeFileList env with
  | none => none
  | some localUpdateFileList =>
    some (getNewChangeFile (getAlreadyUpdateFileList env w) localUpdateFileList)

/-- `update` of `main.go`. -/
def update (env : Env) (w : World) : Outcome × World :=
  let dbUpdateFileList := getAlreadyUpdateFileList env w
  match getAllChangeFileList env with
  | none => (Outcome.panicReadDir, w)
  | some localUpdateFileList =>
    let newUpdateFileList := getNewChangeFile dbUpdateFileList localUpdateFileList
    if newUpdateFileList.length = 0 then
      (Outcome.returned, { w with out := w.out ++ [Line.nothing] })
    else
      doSqlUpdate env newUpdateFileList w

/-! ## Configuration -/

/-- What `loadConfig` asks the configuration library to read: the values
given to `viper.SetConfigName`, `viper.SetConfigType` and
`viper.AddConfigPath` before `viper.ReadInConfig`. -/
structure ConfigSearch where
  configName : GoString
  configType : GoString
  configPaths : List GoString
  deriving DecidableEq

set_option linter.unusedVariables false in
/-- `loadConfig` of `main.go`, up to the call of `viper.ReadInConfig`. -/
def loadConfig (configFileName : GoString) : ConfigSearch :=
  { configName := str "config", configType := str "yaml", configPaths := [str "."] }

/-! ## Notions used in the statements -/

/-- The external client succeeds on the file: its path resolves, the
platform is supported, so that the client is started, and `cmd.Run()` returns
no error. -/
def clientSucceeds (env : Env) (f : GoString) : Bool :=
  !env.absFails f && decide (env.goos ≠ GOOS.other) && env.cmdRun f

/-- The external client fails on the file: it is started as above and
`cmd.Run()` returns an error. -/
def clientFails (env : Env) (f : GoString) : Bool :=
  !env.absFails f && decide (env.goos ≠ GOOS.other) && !env.cmdRun f

/-- The file is applied and recorded when the loop of `doSqlUpdate` reaches
it: the client succeeds on it and its record is inserted. -/
def stepOk (env : Env) (f : GoString) : Bool :=
  clientSucceeds env f && env.dbCreate f

/-- The lines the loop of `doSqlUpdate` writes for files that are applied and
recorded. -/
def linesOf (fs : List GoString) : List Line :=
  fs.flatMap (fun g => [Line.cmd g, Line.imported g])

/-- The world after the files `fs` have been applied and recorded, one after
the other. -/
def advance (w : World) (fs : List GoString) : World :=
  { records := w.records ++ fs, invoked := w.invoked ++ fs, out := w.out ++ linesOf fs }

/-- The prefix of a sequence up to and including the first file on which the
client fails; the whole sequence if it fails on none. -/
def uptoFirstFailure (clientOk : GoString → Bool) : List GoString → List GoString
  | [] => []
  | f :: rest => if clientOk f then f :: uptoFirstFailure clientOk rest else [f]

/-- The extension of a name in the words of the specification: the suffix
of the name that starts at its last dot, and nothing when the name has no
dot. -/
def lastDotSuffix : GoString → GoString
  | [] => []
  | c :: cs =>
    if (lastDotSuffix cs).isEmpty then (if c = 46 then c :: cs else [])
    else lastDotSuffix cs

/-- Two bytes are the same character without regard to case: they are
equal, or one is a capital ASCII letter `A`..`Z` and the other the small
letter that lies 32 above it. -/
def sameIgnoreCase (x y : Nat) : Bool :=
  x == y || (decide (65 ≤ x ∧ x ≤ 90) && y == x + 32)
    || (decide (65 ≤ y ∧ y ≤ 90) && x == y + 32)

/-- Equality of two strings without regard to the case of the ASCII letters:
the strings have the same length and agree byte by byte up to case. -/
def eqIgnoreCase : GoString → GoString → Bool
  | [], [] => true
  | x :: xs, y :: ys => sameIgnoreCase x y && eqIgnoreCase xs ys
  | _, _ => false

/-- The eight spellings of `.sql` in upper and lower case. -/
def sqlSpellings : List GoString :=
  [str ".sql", str ".sqL", str ".sQl", str ".sQL",
   str ".Sql", str ".SqL", str ".SQl", str ".SQL"]

/-! ## Concrete runs -/

/-- The world before anything has been recorded, run or written. -/
def emptyWorld : World := { records := [], invoked := [], out := [] }

/-- A run on Linux over a directory holding `001.sql`, `002.sql` and
`003.sql` in which every path resolves, the client succeeds on every file,
and the record insert fails for `rejected` only. -/
def envInsertFails (rejected : GoString) : Env :=
  { goos := GOOS.linux, unicodeLower := fun s => s,
    readDir := some [⟨str "001.sql", false⟩, ⟨str "002.sql", false⟩, ⟨str "003.sql", false⟩],
    findFails := false, findScanned := fun _ => false, absFails := fun _ => false, cmdRun := fun _ => true,
    dbCreate := fun f => f != rejected }

/-- A run on Linux over a directory holding `001.sql` and `002.sql` in which
every path resolves, every record insert succeeds, and the client fails on
`broken` only. -/
def envClientFails (broken : GoString) : Env :=
  { goos := GOOS.linux, unicodeLower := fun s => s,
    readDir := some [⟨str "001.sql", false⟩, ⟨str "002.sql", false⟩],
    findFails := false, findScanned := fun _ => false, absFails := fun _ => false, cmdRun := fun f => f != broken,
    dbCreate := fun _ => true }

/-- A run on Linux over a directory holding `001.sql` and `002.sql` in which
the client and the record inserts succeed and `filepath.Abs` fails for
`unresolved` only. -/
def envPathFails (unresolved : GoString) : Env :=
  { goos := GOOS.linux, unicodeLower := fun s => s,
    readDir := some [⟨str "001.sql", false⟩, ⟨str "002.sql", false⟩],
    findFails := false, findScanned := fun _ => false,
    absFails := fun f => f == unresolved, cmdRun := fun _ => true,
    dbCreate := fun _ => true }

/-- A run on Linux over a directory holding `001.sql`, `002.sql` and
`003.sql` in which every path resolves, the client fails on `002.sql` only
and the record insert would fail for `003.sql` only. -/
def envFailsPastStop : Env :=
  { goos := GOOS.linux, unicodeLower := fun s => s,
    readDir := some [⟨str "001.sql", false⟩, ⟨str "002.sql", false⟩, ⟨str "003.sql", false⟩],
    findFails := false, findScanned := fun _ => false, absFails := fun _ => false,
    cmdRun := fun f => f != str "002.sql", dbCreate := fun f => f != str "003.sql" }

/-- The same run when the query `db.Find` fails before its first row is
scanned and the store takes no insert. -/
def withFindError (env : Env) : Env :=
  { env with findFails := true, findScanned := fun _ => false, dbCreate := fun _ => false }

/-- A run on Linux over the directory of the scenario, `002_add_col.sql`,
`001_init.sql` and `readme.txt`, in which every step succeeds. -/
def envScenario : Env :=
  { goos := GOOS.linux, unicodeLower := fun s => s,
    readDir := some [⟨str "002_add_col.sql", false⟩, ⟨str "001_init.sql", false⟩,
      ⟨str "readme.txt", false⟩],
    findFails := false, findScanned := fun _ => false, absFails := fun _ => false, cmdRun := fun _ => true,
    dbCreate := fun _ => true }

/-- A run on Linux over a directory that holds the files `003_data.SQL`,
`004_idx.Sql`, `notes.sql.bak`, `readme.txt` and `sql`, and the directories
`old.sql` and `archive`; every step succeeds. -/
def envMixedListing : Env :=
  { goos := GOOS.linux, unicodeLower := fun s => s,
    readDir := some [⟨str "003_data.SQL", false⟩, ⟨str "004_idx.Sql", false⟩,
      ⟨str "archive", true⟩, ⟨str "notes.sql.bak", false⟩, ⟨str "old.sql", true⟩,
      ⟨str "readme.txt", false⟩, ⟨str "sql", false⟩],
    findFails := false, findScanned := fun _ => false, absFails := fun _ => false,
    cmdRun := fun _ => true, dbCreate := fun _ => true }

/-- A run on Linux over a directory holding `001_init.sql`, whose record
exists already in `worldApplied`, in which the query `db.Find` fails, the
client succeeds and the record insert is rejected. -/
def envFindFails : Env :=
  { goos := GOOS.linux, unicodeLower := fun s => s,
    readDir := some [⟨str "001_init.sql", false⟩],
    findFails := true, findScanned := fun _ => false, absFails := fun _ => false, cmdRun := fun _ => true,
    dbCreate := fun _ => false }

/-- The world in which `001_init.sql` is recorded as applied. -/
def worldApplied : World := { records := [str "001_init.sql"], invoked := [], out := [] }

/-- A run on Linux over a directory holding `001.sql`, `002.sql` and
`003.sql` in which every step succeeds. -/
def envAllSucceed : Env :=
  { goos := GOOS.linux, unicodeLower := fun s => s,
    readDir := some [⟨str "001.sql", false⟩, ⟨str "002.sql", false⟩, ⟨str "003.sql", false⟩],
    findFails := false, findScanned := fun _ => false, absFails := fun _ => false, cmdRun := fun _ => true,
    dbCreate := fun _ => true }

/-! ## The order of strings -/

theorem strLess_irrefl (a : GoString) : strLess a a = false := by
  induction a with
  | nil => rfl
  | cons x xs ih => simp [strLess, ih]

theorem strLess_trans : ∀ {a b c : GoString},
    strLess a b = true → strLess b c = true → strLess a c = true
  | [], [], _, h, _ => by simp [strLess] at h
  | [], _ :: _, [], _, h => by simp [strLess] at h
  | [], _ :: _, _ :: _, _, _ => by simp [strLess]
  | _ :: _, [], _, h, _ => by simp [strLess] at h
  | _ :: _, _ :: _, [], _, h => by simp [strLess] at h
  | x :: xs, y :: ys, z :: zs, hab, hbc => by
    simp only [strLess] at hab hbc ⊢
    by_cases hxy : x < y
    · by_cases hyz : y < z
      · have : x < z := by omega
        simp [this]
      · by_cases hzy : z < y
        · simp [hyz, hzy] at hbc
        · have : x < z := by omega
          simp [this]
    · by_cases hyx : y < x
      · simp [hxy, hyx] at hab
      · simp only [hxy, hyx, if_false] at hab
        have hxy' : x = y := by omega
        subst hxy'
        by_cases hxz : x < z
        · simp [hxz]
        · by_cases hzx : z < x
          · simp [hxz, hzx] at hbc
          · simp only [hxz, hzx, if_false] at hbc ⊢
            exact strLess_trans hab hbc

theorem strLess_connex : ∀ {a b : GoString},
    strLess a b = false → strLess b a = false → a = b
  | [], [], _, _ => rfl
  | [], _ :: _, h, _ => by simp [strLess] at h
  | _ :: _, [], _, h => by simp [strLess] at h
  | x :: xs, y :: ys, hab, hba => by
    simp only [strLess] at hab hba
    by_cases hxy : x < y
    · simp [hxy] at hab
    · by_cases hyx : y < x
      · simp [hyx] at hba
      · simp only [hxy, hyx, if_false] at hab hba
        have hxy' : x = y := by omega
        rw [hxy', strLess_connex hab hba]

theorem strLess_asymm {a b : GoString} (h : strLess a b = true) : strLess b a = false := by
  cases hba : strLess b a with
  | false => rfl
  | true => have := strLess_trans h hba; rw [strLess_irrefl] at this; cases this

theorem strLe_of_strLess {a b : GoString} (h : strLess a b = true) : strLe a b :=
  strLess_asymm h

theorem strLe_trans {a b c : GoString} (hab : strLe a b) (hbc : strLe b c) : strLe a c := by
  unfold strLe at *
  cases hca : strLess c a with
  | false => rfl
  | true =>
    cases hcb : strLess b a with
    | true => rw [hcb] at hab; cases hab
    | false =>
      -- c < a and not (b < a), so a ≤ b; not (c < b)
      cases hab' : strLess a b with
      | true => have := strLess_trans hca hab'; rw [hbc] at this; cases this
      | false =>
        have := strLess_connex hab' hcb
        subst this
        rw [hca] at hbc; cases hbc

/-! ## Sorting -/

theorem insertStr_perm (x : GoString) (l : List GoString) : (insertStr x l).Perm (x :: l) := by
  induction l with
  | nil => exact List.Perm.refl _
  | cons y ys ih =>
    unfold insertStr
    by_cases h : strLess y x = true
    · rw [if_pos h]
      exact (List.Perm.cons y ih).trans (List.Perm.swap x y ys)
    · rw [if_neg h]

theorem sortStrings_perm (l : List GoString) : (sortStrings l).Perm l := by
  induction l with
  | nil => exact List.Perm.refl _
  | cons x xs ih => exact (insertStr_perm x _).trans (List.Perm.cons x ih)

theorem insertStr_sorted (x : GoString) (l : List GoString) (h : l.Pairwise strLe) :
    (insertStr x l).Pairwise strLe := by
  induction l with
  | nil => simp [insertStr]
  | cons y ys ih =>
    unfold insertStr
    rw [List.pairwise_cons] at h
    by_cases hyx : strLess y x = true
    · rw [if_pos hyx, List.pairwise_cons]
      refine ⟨?_, ih h.2⟩
      intro z hz
      have hz' := (List.Perm.mem_iff (insertStr_perm x ys)).1 hz
      rw [List.mem_cons] at hz'
      rcases hz' with hz' | hz'
      · rw [hz']
        exact strLe_of_strLess hyx
      · exact h.1 z hz'
    · rw [if_neg hyx, List.pairwise_cons]
      have hxy : strLe x y := by simpa [strLe] using hyx
      refine ⟨?_, List.pairwise_cons.2 h⟩
      intro z hz
      rw [List.mem_cons] at hz
      rcases hz with hz | hz
      · subst hz; exact hxy
      · exact strLe_trans hxy (h.1 z hz)

theorem sortStrings_sorted (l : List GoString) : (sortStrings l).Pairwise strLe := by
  induction l with
  | nil => exact List.Pairwise.nil
  | cons x xs ih => exact insertStr_sorted x _ ih

/-- A list in increasing order that is a rearrangement of `l` is the result of
sorting `l`. -/
theorem sortStrings_unique {l s : List GoString} (hp : s.Perm l) (hs : s.Pairwise strLe) :
    sortStrings l = s := by
  haveI : IsAntisymm GoString strLe := ⟨fun _ _ hab hba => strLess_connex hba hab⟩
  exact List.eq_of_perm_of_sorted ((sortStrings_perm l).trans hp.symm) (sortStrings_sorted l) hs

theorem sortStrings_strict {l : List GoString} (hl : l.Nodup) :
    (sortStrings l).Pairwise (fun a b => strLess a b = true) := by
  have hnd : (sortStrings l).Nodup := (List.Perm.nodup_iff (sortStrings_perm l)).2 hl
  refine List.Pairwise.imp₂ ?_ (sortStrings_sorted l) hnd
  intro a b hle hne
  cases hab : strLess a b with
  | true => rfl
  | false => exact absurd (strLess_connex hab hle) hne

/-! ## Maps -/

theorem GoMap.mem_set (m : GoMap) (k x : GoString) :
    x ∈ (m.set k).keys ↔ x ∈ m.keys ∨ x = k := by
  unfold GoMap.set
  by_cases h : k ∈ m.keys
  · rw [dif_pos h]
    constructor
    · exact Or.inl
    · rintro (hx | hx)
      · exact hx
      · exact hx ▸ h
  · rw [dif_neg h]
    simp

theorem GoMap.mem_foldl_set (l : List GoString) (m : GoMap) (x : GoString) :
    x ∈ (l.foldl GoMap.set m).keys ↔ x ∈ m.keys ∨ x ∈ l := by
  induction l generalizing m with
  | nil => simp
  | cons k ks ih =>
    rw [List.foldl_cons, ih, GoMap.mem_set, List.mem_cons, or_assoc]

theorem GoMap.has_iff (m : GoMap) (k : GoString) : m.has k = true ↔ k ∈ m.keys := by
  simp [GoMap.has]

/-! ## The diff engine -/

theorem diff_foldl (p : GoString → Bool) (l init : List GoString) :
    l.foldl (fun newFiles f => if p f then newFiles else newFiles ++ [f]) init
      = init ++ l.filter (fun f => !p f) := by
  induction l generalizing init with
  | nil => simp
  | cons x xs ih =>
    rw [List.foldl_cons, ih]
    by_cases h : p x = true
    · simp [h]
    · simp [h]

/-- The result of `getNewChangeFile` in one expression. -/
theorem getNewChangeFile_eq (dbRecords localFiles : GoMap) :
    getNewChangeFile dbRecords localFiles
      = sortStrings (localFiles.keys.filter (fun f => !dbRecords.has f)) := by
  unfold getNewChangeFile
  by_cases h : dbRecords.len = 0 ∧ localFiles.len = 0
  · rw [if_pos h]
    have : localFiles.keys = [] := List.length_eq_zero.1 h.2
    rw [this]
    rfl
  · rw [if_neg h]
    simp only [diff_foldl, List.nil_append]
    by_cases h0 : (localFiles.keys.filter (fun f => !dbRecords.has f)).length = 0
    · rw [if_pos h0, List.length_eq_zero.1 h0]
      rfl
    · rw [if_neg h0]

theorem mem_getNewChangeFile (dbRecords localFiles : GoMap) (f : GoString) :
    f ∈ getNewChangeFile dbRecords localFiles ↔ f ∈ localFiles.keys ∧ f ∉ dbRecords.keys := by
  rw [getNewChangeFile_eq, List.Perm.mem_iff (sortStrings_perm _), List.mem_filter]
  simp [GoMap.has]

theorem getNewChangeFile_strict (dbRecords localFiles : GoMap) :
    (getNewChangeFile dbRecords localFiles).Pairwise (fun a b => strLess a b = true) := by
  rw [getNewChangeFile_eq]
  exact sortStrings_strict (List.Nodup.filter _ localFiles.nodup)

theorem getNewChangeFile_nodup (dbRecords localFiles : GoMap) :
    (getNewChangeFile dbRecords localFiles).Nodup := by
  rw [getNewChangeFile_eq]
  exact (List.Perm.nodup_iff (sortStrings_perm _)).2 (List.Nodup.filter _ localFiles.nodup)

theorem getNewChangeFile_congr {A A' L L' : GoMap}
    (hA : ∀ k, k ∈ A.keys ↔ k ∈ A'.keys) (hL : ∀ k, k ∈ L.keys ↔ k ∈ L'.keys) :
    getNewChangeFile A L = getNewChangeFile A' L' := by
  rw [getNewChangeFile_eq, getNewChangeFile_eq]
  have hfun : (fun f => !A.has f) = (fun f => !A'.has f) := by
    funext f
    have := hA f
    by_cases h : f ∈ A.keys
    · simp [GoMap.has, h, this.1 h]
    · have h' : f ∉ A'.keys := fun hh => h (this.2 hh)
      simp [GoMap.has, h, h']
  rw [hfun]
  have hperm : L.keys.Perm L'.keys := (List.perm_ext_iff_of_nodup L.nodup L'.nodup).2 hL
  exact sortStrings_unique ((sortStrings_perm _).trans (hperm.symm.filter _))
    (sortStrings_sorted _)

/-- C1: a file name is in `getNewChangeFile(A, L)` exactly when it is a key of
the local set `L` and not a key of the applied set `A`; with `A` holding
`001_init.sql` and `L` holding `001_init.sql` and `002_add_col.sql` the result
is the one name `002_add_col.sql`. -/
theorem getNewChangeFile_is_local_minus_applied :
    (∀ (A L : GoMap) (f : GoString),
      f ∈ getNewChangeFile A L ↔ f ∈ L.keys ∧ f ∉ A.keys) ∧
    getNewChangeFile (GoMap.ofList [str "001_init.sql"])
        (GoMap.ofList [str "001_init.sql", str "002_add_col.sql"])
      = [str "002_add_col.sql"] :=
  ⟨mem_getNewChangeFile, by decide⟩

/-- C2: the sequence returned by `getNewChangeFile(A, L)` is strictly
increasing in the byte order of names: every element is smaller than the one
after it (and than every later one), so no name occurs twice. -/
theorem getNewChangeFile_strictly_sorted (A L : GoMap) :
    List.Chain' (fun a b => strLess a b = true) (getNewChangeFile A L) ∧
    List.Pairwise (fun a b => strLess a b = true) (getNewChangeFile A L) ∧
    (getNewChangeFile A L).Nodup :=
  ⟨List.Pairwise.chain' (getNewChangeFile_strict A L), getNewChangeFile_strict A L,
    getNewChangeFile_nodup A L⟩

/-- C9: two maps with the same applied keys and two maps with the same local
keys, whatever the order in which the keys were assigned or are enumerated,
give the same sequence. -/
theorem getNewChangeFile_order_independent (A A' L L' : GoMap)
    (hA : ∀ k, k ∈ A.keys ↔ k ∈ A'.keys) (hL : ∀ k, k ∈ L.keys ↔ k ∈ L'.keys) :
    getNewChangeFile A L = getNewChangeFile A' L' :=
  getNewChangeFile_congr hA hL

/-- C9 at the applied keys `a.sql`, `b.sql` and the local keys `a.sql`,
`c.sql`, `b.sql`, `d.sql`, each map built in two different orders. -/
theorem getNewChangeFile_order_independent_witness :
    getNewChangeFile (GoMap.ofList [str "a.sql", str "b.sql"])
        (GoMap.ofList [str "a.sql", str "c.sql", str "b.sql", str "d.sql"])
      = getNewChangeFile (GoMap.ofList [str "b.sql", str "a.sql"])
        (GoMap.ofList [str "d.sql", str "b.sql", str "c.sql", str "a.sql"]) :=
  getNewChangeFile_order_independent _ _ _ _
    (fun _ => List.Perm.mem_iff (by decide)) (fun _ => List.Perm.mem_iff (by decide))

/-! ## The applier -/

theorem advance_nil (w : World) : advance w [] = w := by
  simp [advance, linesOf]

theorem advance_append (w : World) (xs ys : List GoString) :
    advance (advance w xs) ys = advance w (xs ++ ys) := by
  simp [advance, linesOf]

theorem loop_cons_ok {env : Env} {f : GoString} (h : stepOk env f = true)
    (rest : List GoString) (w : World) :
    doSqlUpdateLoop env (f :: rest) w = doSqlUpdateLoop env rest (advance w [f]) := by
  simp only [stepOk, clientSucceeds, Bool.and_eq_true, Bool.not_eq_true',
    decide_eq_true_eq] at h
  obtain ⟨⟨⟨habs, hos⟩, hcmd⟩, hdb⟩ := h
  cases hg : env.goos with
  | other => exact absurd hg hos
  | linux => simp [doSqlUpdateLoop, habs, hg, hcmd, hdb, advance, linesOf]
  | windows => simp [doSqlUpdateLoop, habs, hg, hcmd, hdb, advance, linesOf]

theorem loop_prefix_ok {env : Env} (pre : List GoString)
    (h : ∀ g ∈ pre, stepOk env g = true) (rest : List GoString) (w : World) :
    doSqlUpdateLoop env (pre ++ rest) w = doSqlUpdateLoop env rest (advance w pre) := by
  induction pre generalizing w with
  | nil => rw [advance_nil]; rfl
  | cons g gs ih =>
    rw [List.cons_append, loop_cons_ok (h g (List.mem_cons_self g gs)),
      ih (fun x hx => h x (List.mem_cons_of_mem g hx)), advance_append]
    rfl

theorem loop_all_ok {env : Env} (fs : List GoString)
    (h : ∀ g ∈ fs, stepOk env g = true) (w : World) :
    doSqlUpdateLoop env fs w = (Outcome.returned, advance w fs) := by
  have := loop_prefix_ok fs h [] w
  rw [List.append_nil] at this
  rw [this]
  rfl

theorem loop_cons_execFails {env : Env} {f : GoString} (h : clientFails env f = true)
    (rest : List GoString) (w : World) :
    doSqlUpdateLoop env (f :: rest) w
      = (Outcome.fatalExec,
          { w with out := w.out ++ [Line.cmd f], invoked := w.invoked ++ [f] }) := by
  simp only [clientFails, Bool.and_eq_true, Bool.not_eq_true', decide_eq_true_eq] at h
  obtain ⟨⟨habs, hos⟩, hcmd⟩ := h
  cases hg : env.goos with
  | other => exact absurd hg hos
  | linux => simp [doSqlUpdateLoop, habs, hg, hcmd]
  | windows => simp [doSqlUpdateLoop, habs, hg, hcmd]

theorem loop_cons_recordFails {env : Env} {f : GoString} (h : clientSucceeds env f = true)
    (hdb : env.dbCreate f = false) (rest : List GoString) (w : World) :
    doSqlUpdateLoop env (f :: rest) w
      = (Outcome.fatalRecord,
          { w with out := w.out ++ [Line.cmd f, Line.imported f],
                   invoked := w.invoked ++ [f] }) := by
  simp only [clientSucceeds, Bool.and_eq_true, Bool.not_eq_true', decide_eq_true_eq] at h
  obtain ⟨⟨habs, hos⟩, hcmd⟩ := h
  cases hg : env.goos with
  | other => exact absurd hg hos
  | linux => simp [doSqlUpdateLoop, habs, hg, hcmd, hdb]
  | windows => simp [doSqlUpdateLoop, habs, hg, hcmd, hdb]

/-- A run of the loop that returns has applied and recorded every file. -/
theorem loop_returned {env : Env} (fs : List GoString) (w : World)
    (h : (doSqlUpdateLoop env fs w).1 = Outcome.returned) :
    ∀ g ∈ fs, stepOk env g = true := by
  induction fs generalizing w with
  | nil => intro g hg; cases hg
  | cons f rest ih =>
    have hf : stepOk env f = true := by
      cases hs : stepOk env f with
      | true => rfl
      | false =>
        exfalso
        simp only [stepOk, clientSucceeds, Bool.and_eq_false_iff, Bool.not_eq_false',
          decide_eq_false_iff_not, not_not] at hs
        cases hg : env.goos <;> cases ha : env.absFails f <;> cases hc : env.cmdRun f <;>
          cases hd : env.dbCreate f <;>
          simp [doSqlUpdateLoop, hg, ha, hc, hd] at h hs
    intro g hg
    rw [List.mem_cons] at hg
    rcases hg with hg | hg
    · rw [hg]; exact hf
    · rw [loop_cons_ok hf] at h
      exact ih _ h g hg

theorem linesOf_no_success (fs : List GoString) (n : Nat) : Line.success n ∉ linesOf fs := by
  simp [linesOf]

/-- What `doSqlUpdate` adds to its loop: nothing but the summary line, and
that only after a loop that returns. -/
theorem doSqlUpdate_eq_loop (env : Env) (fs : List GoString) (w : World) :
    (doSqlUpdate env fs w).1 = (doSqlUpdateLoop env fs w).1 ∧
    (doSqlUpdate env fs w).2.records = (doSqlUpdateLoop env fs w).2.records ∧
    (doSqlUpdate env fs w).2.invoked = (doSqlUpdateLoop env fs w).2.invoked ∧
    ((doSqlUpdateLoop env fs w).1 ≠ Outcome.returned →
      (doSqlUpdate env fs w).2.out = (doSqlUpdateLoop env fs w).2.out) := by
  cases fs with
  | nil => simp [doSqlUpdate, doSqlUpdateLoop]
  | cons f rest =>
    rcases h : doSqlUpdateLoop env (f :: rest) w with ⟨o, w1⟩
    cases o <;> simp [doSqlUpdate, h]

/-- A file that is not applied and recorded ends the loop: the outcome is
fatal, the client has been run on this file at most, nothing is recorded and
no summary is written. -/
theorem loop_cons_not_ok {env : Env} {f : GoString} (h : stepOk env f = false)
    (rest : List GoString) (w : World) :
    (doSqlUpdateLoop env (f :: rest) w).1 ≠ Outcome.returned ∧
    ((doSqlUpdateLoop env (f :: rest) w).2.invoked = w.invoked ∨
      (doSqlUpdateLoop env (f :: rest) w).2.invoked = w.invoked ++ [f]) ∧
    (∀ n, Line.success n ∈ (doSqlUpdateLoop env (f :: rest) w).2.out →
      Line.success n ∈ w.out) := by
  simp only [stepOk, clientSucceeds, Bool.and_eq_false_iff, Bool.not_eq_false',
    decide_eq_false_iff_not, not_not] at h
  cases hg : env.goos <;> cases ha : env.absFails f <;> cases hc : env.cmdRun f <;>
    cases hd : env.dbCreate f <;>
    simp [doSqlUpdateLoop, hg, ha, hc, hd] at h ⊢

theorem uptoFirstFailure_take_one (clientOk : GoString → Bool) (f : GoString)
    (rest : List GoString) : (uptoFirstFailure clientOk (f :: rest)).take 1 = [f] := by
  cases h : clientOk f <;> simp [uptoFirstFailure, h]

theorem uptoFirstFailure_ne_nil (clientOk : GoString → Bool) (f : GoString)
    (rest : List GoString) : uptoFirstFailure clientOk (f :: rest) ≠ [] := by
  cases h : clientOk f <;> simp [uptoFirstFailure, h]

/-- The client is never run past the first file on which it fails, whatever
the platform, the paths and the record inserts do. -/
theorem loop_invoked_within (env : Env) (fs : List GoString) (w : World) :
    ∃ k, (doSqlUpdateLoop env fs w).2.invoked
      = w.invoked ++ (uptoFirstFailure env.cmdRun fs).take k := by
  induction fs generalizing w with
  | nil => exact ⟨0, by simp [doSqlUpdateLoop]⟩
  | cons f rest ih =>
    cases hs : stepOk env f with
    | false =>
      rcases (loop_cons_not_ok hs rest w).2.1 with h | h
      · exact ⟨0, by rw [h]; simp⟩
      · exact ⟨1, by rw [h, uptoFirstFailure_take_one]⟩
    | true =>
      have hc : env.cmdRun f = true := by
        simp only [stepOk, clientSucceeds, Bool.and_eq_true] at hs
        exact hs.1.2
      obtain ⟨k, hk⟩ := ih (advance w [f])
      refine ⟨k + 1, ?_⟩
      rw [loop_cons_ok hs, hk]
      simp [uptoFirstFailure, hc, advance]

theorem loop_out_no_success (env : Env) (fs : List GoString) (w : World) (n : Nat)
    (h : Line.success n ∈ (doSqlUpdateLoop env fs w).2.out) : Line.success n ∈ w.out := by
  induction fs generalizing w with
  | nil => exact h
  | cons f rest ih =>
    cases hs : stepOk env f with
    | false => exact (loop_cons_not_ok hs rest w).2.2 n h
    | true =>
      rw [loop_cons_ok hs] at h
      have := ih (advance w [f]) h
      simpa [advance, linesOf] using this

/-- A client failure anywhere in the sequence keeps the loop from
returning. -/
theorem loop_not_returned (env : Env) (fs : List GoString) (w : World)
    (h : ∃ f ∈ fs, env.cmdRun f = false) :
    (doSqlUpdateLoop env fs w).1 ≠ Outcome.returned := by
  intro hret
  obtain ⟨f, hf, hc⟩ := h
  have := loop_returned fs w hret f hf
  simp [stepOk, clientSucceeds, hc] at this

theorem loop_upto_client_failure (env : Env) (fs : List GoString) (w : World)
    (hos : env.goos ≠ GOOS.other)
    (habs : ∀ f ∈ uptoFirstFailure env.cmdRun fs, env.absFails f = false)
    (hdb : ∀ f ∈ (uptoFirstFailure env.cmdRun fs).dropLast, env.dbCreate f = true) :
    (doSqlUpdateLoop env fs w).2.invoked = w.invoked ++ uptoFirstFailure env.cmdRun fs ∧
    ((∃ f ∈ fs, env.cmdRun f = false) →
      (doSqlUpdateLoop env fs w).1 = Outcome.fatalExec) := by
  induction fs generalizing w with
  | nil => simp [doSqlUpdateLoop, uptoFirstFailure]
  | cons f rest ih =>
    cases hc : env.cmdRun f with
    | false =>
      have hfa : env.absFails f = false := habs f (by simp [uptoFirstFailure, hc])
      rw [loop_cons_execFails (by simp [clientFails, hfa, hos, hc])]
      simp [uptoFirstFailure, hc]
    | true =>
      have hfa : env.absFails f = false := habs f (by simp [uptoFirstFailure, hc])
      have hcl : clientSucceeds env f = true := by simp [clientSucceeds, hfa, hos, hc]
      cases rest with
      | nil =>
        cases hd : env.dbCreate f with
        | false =>
          rw [loop_cons_recordFails hcl hd]
          simp [uptoFirstFailure, hc]
        | true =>
          rw [loop_cons_ok (by simp [stepOk, hcl, hd])]
          simp [doSqlUpdateLoop, uptoFirstFailure, hc, advance]
      | cons g rest' =>
        have hup : uptoFirstFailure env.cmdRun (f :: g :: rest')
            = f :: uptoFirstFailure env.cmdRun (g :: rest') := by
          simp [uptoFirstFailure, hc]
        have hdl : (uptoFirstFailure env.cmdRun (f :: g :: rest')).dropLast
            = f :: (uptoFirstFailure env.cmdRun (g :: rest')).dropLast := by
          rw [hup, List.dropLast_cons_of_ne_nil (uptoFirstFailure_ne_nil _ g rest')]
        have hfd : env.dbCreate f = true := hdb f (by rw [hdl]; exact List.mem_cons_self _ _)
        rw [loop_cons_ok (by simp [stepOk, hcl, hfd])]
        obtain ⟨h1, h2⟩ := ih (advance w [f])
          (fun x hx => habs x (by rw [hup]; exact List.mem_cons_of_mem f hx))
          (fun x hx => hdb x (by rw [hdl]; exact List.mem_cons_of_mem f hx))
        refine ⟨?_, ?_⟩
        · rw [h1, hup]
          simp [advance]
        · rintro ⟨x, hx, hxc⟩
          rw [List.mem_cons] at hx
          rcases hx with hx | hx
          · rw [hx, hc] at hxc; cases hxc
          · exact h2 ⟨x, hx, hxc⟩

/-- C3, as it is written, fails: on Linux, with the client succeeding on
both `001.sql` and `002.sql` and the record insert of `001.sql` rejected, the
client is run on `001.sql` only, while the prefix up to the first client
failure is the whole sequence.  The same happens when the client and the
inserts succeed and the path of `002.sql` does not resolve. -/
theorem doSqlUpdate_invoked_short_of_client_failure :
    (envInsertFails (str "001.sql")).goos ≠ GOOS.other ∧
    uptoFirstFailure (envInsertFails (str "001.sql")).cmdRun [str "001.sql", str "002.sql"]
      = [str "001.sql", str "002.sql"] ∧
    (doSqlUpdate (envInsertFails (str "001.sql")) [str "001.sql", str "002.sql"]
      emptyWorld).2.invoked = [str "001.sql"] ∧
    (doSqlUpdate (envInsertFails (str "001.sql")) [str "001.sql", str "002.sql"]
      emptyWorld).2.invoked
      ≠ emptyWorld.invoked ++
        uptoFirstFailure (envInsertFails (str "001.sql")).cmdRun
          [str "001.sql", str "002.sql"] ∧
    (envPathFails (str "002.sql")).goos ≠ GOOS.other ∧
    uptoFirstFailure (envPathFails (str "002.sql")).cmdRun [str "001.sql", str "002.sql"]
      = [str "001.sql", str "002.sql"] ∧
    (doSqlUpdate (envPathFails (str "002.sql")) [str "001.sql", str "002.sql"]
      emptyWorld).2.invoked = [str "001.sql"] ∧
    (doSqlUpdate (envPathFails (str "002.sql")) [str "001.sql", str "002.sql"]
      emptyWorld).2.invoked
      ≠ emptyWorld.invoked ++
        uptoFirstFailure (envPathFails (str "002.sql")).cmdRun
          [str "001.sql", str "002.sql"] := by
  decide

/-- C3, amended.  Let `P` be the prefix of the sequence up to and including
the first file on which the client fails (the whole sequence if it fails on
none).  On every platform and whatever the paths and the record inserts do,
the files on which `doSqlUpdate` runs the client are, in order, an initial
part of `P`, so no file after the first failing file is attempted; and if the
client fails on a file of the sequence the run does not return and writes no
success summary.  On a supported platform, when the path of every file of `P`
resolves and the record insert succeeds for every file of `P` but its last,
the files on which the client is run are exactly `P`, and a client failure
ends the run with the fatal error of the client. -/
theorem doSqlUpdate_stops_at_first_client_failure (env : Env) (fs : List GoString)
    (w : World) :
    (∃ k, (doSqlUpdate env fs w).2.invoked
      = w.invoked ++ (uptoFirstFailure env.cmdRun fs).take k) ∧
    ((∃ f ∈ fs, env.cmdRun f = false) →
      (doSqlUpdate env fs w).1 ≠ Outcome.returned ∧
      ∀ n, Line.success n ∈ (doSqlUpdate env fs w).2.out → Line.success n ∈ w.out) ∧
    (env.goos ≠ GOOS.other →
      (∀ f ∈ uptoFirstFailure env.cmdRun fs, env.absFails f = false) →
      (∀ f ∈ (uptoFirstFailure env.cmdRun fs).dropLast, env.dbCreate f = true) →
      (doSqlUpdate env fs w).2.invoked = w.invoked ++ uptoFirstFailure env.cmdRun fs ∧
      ((∃ f ∈ fs, env.cmdRun f = false) →
        (doSqlUpdate env fs w).1 = Outcome.fatalExec)) := by
  obtain ⟨e1, _, e3, e4⟩ := doSqlUpdate_eq_loop env fs w
  refine ⟨?_, ?_, ?_⟩
  · rw [e3]
    exact loop_invoked_within env fs w
  · intro hex
    have hne := loop_not_returned env fs w hex
    rw [e1, e4 hne]
    exact ⟨hne, fun n hn => loop_out_no_success env fs w n hn⟩
  · intro hos habs hdb
    rw [e1, e3]
    exact loop_upto_client_failure env fs w hos habs hdb

/-- C3, amended, at the sequence `001.sql`, `002.sql`, `003.sql` on Linux
with the client failing on `002.sql` and the record insert failing for the
file `003.sql`, which is never reached: the client is run on `001.sql` and
`002.sql`, and the run ends with the fatal error of the client and without a
summary. -/
theorem doSqlUpdate_stops_at_first_client_failure_witness :
    envFailsPastStop.dbCreate (str "003.sql") = false ∧
    (doSqlUpdate envFailsPastStop [str "001.sql", str "002.sql", str "003.sql"]
        emptyWorld).2.invoked = [str "001.sql", str "002.sql"] ∧
    (doSqlUpdate envFailsPastStop [str "001.sql", str "002.sql", str "003.sql"]
        emptyWorld).1 = Outcome.fatalExec ∧
    ∀ n, Line.success n ∉ (doSqlUpdate envFailsPastStop
        [str "001.sql", str "002.sql", str "003.sql"] emptyWorld).2.out := by
  have h := doSqlUpdate_stops_at_first_client_failure envFailsPastStop
    [str "001.sql", str "002.sql", str "003.sql"] emptyWorld
  have hex : ∃ f ∈ [str "001.sql", str "002.sql", str "003.sql"],
      envFailsPastStop.cmdRun f = false := ⟨str "002.sql", by decide, by decide⟩
  have hexact := h.2.2 (by decide) (by decide) (by decide)
  refine ⟨by decide, hexact.1.trans (by decide), hexact.2 hex, fun n hn => ?_⟩
  have := (h.2.1 hex).2 n hn
  simp [emptyWorld] at this

/-- C8: when `doSqlUpdate` reaches a file (every file before it in the
sequence was applied and recorded) on which the client succeeds and whose
record insert fails, the run ends fatally there: the records gained are those
of the earlier files only, so this file stays unrecorded and no later file is
recorded; the client has been run on the earlier files and this one and on no
later file; and no success summary is written. -/
theorem doSqlUpdate_halts_on_record_failure (env : Env) (pre post : List GoString)
    (f : GoString) (w : World) (hpre : ∀ g ∈ pre, stepOk env g = true)
    (hclient : clientSucceeds env f = true) (hdb : env.dbCreate f = false) :
    (doSqlUpdate env (pre ++ f :: post) w).1 = Outcome.fatalRecord ∧
    (doSqlUpdate env (pre ++ f :: post) w).2.records = w.records ++ pre ∧
    (f ∉ w.records → f ∉ (doSqlUpdate env (pre ++ f :: post) w).2.records) ∧
    (doSqlUpdate env (pre ++ f :: post) w).2.invoked = w.invoked ++ pre ++ [f] ∧
    (doSqlUpdate env (pre ++ f :: post) w).2.out
      = w.out ++ linesOf pre ++ [Line.cmd f, Line.imported f] ∧
    ∀ n, Line.success n ∈ (doSqlUpdate env (pre ++ f :: post) w).2.out →
      Line.success n ∈ w.out := by
  obtain ⟨e1, e2, e3, e4⟩ := doSqlUpdate_eq_loop env (pre ++ f :: post) w
  have hloop : doSqlUpdateLoop env (pre ++ f :: post) w
      = (Outcome.fatalRecord,
          { advance w pre with
            out := (advance w pre).out ++ [Line.cmd f, Line.imported f],
            invoked := (advance w pre).invoked ++ [f] }) := by
    rw [loop_prefix_ok pre hpre, loop_cons_recordFails hclient hdb]
  have hne : (doSqlUpdateLoop env (pre ++ f :: post) w).1 ≠ Outcome.returned := by
    rw [hloop]; exact fun h => Outcome.noConfusion h
  have hfpre : f ∉ pre := by
    intro hmem
    have := hpre f hmem
    simp [stepOk, hdb] at this
  rw [e1, e2, e3, e4 hne, hloop]
  refine ⟨rfl, rfl, ?_, ?_, rfl, ?_⟩
  · intro hw hmem
    rcases List.mem_append.1 hmem with h | h
    · exact hw h
    · exact hfpre h
  · simp [advance]
  · intro n hn
    simpa [advance, linesOf] using hn

/-- C8 at the sequence `001.sql`, `002.sql`, `003.sql` on Linux with the
client succeeding everywhere and the record insert of `002.sql` rejected. -/
theorem doSqlUpdate_halts_on_record_failure_witness :
    (doSqlUpdate (envInsertFails (str "002.sql")) [str "001.sql", str "002.sql", str "003.sql"]
        emptyWorld).1 = Outcome.fatalRecord ∧
    (doSqlUpdate (envInsertFails (str "002.sql")) [str "001.sql", str "002.sql", str "003.sql"]
        emptyWorld).2.records = [str "001.sql"] ∧
    (doSqlUpdate (envInsertFails (str "002.sql")) [str "001.sql", str "002.sql", str "003.sql"]
        emptyWorld).2.invoked = [str "001.sql", str "002.sql"] := by
  have h := doSqlUpdate_halts_on_record_failure (envInsertFails (str "002.sql"))
    [str "001.sql"] [str "003.sql"] (str "002.sql") emptyWorld
    (by decide) (by decide) (by decide)
  exact ⟨h.1, h.2.1, h.2.2.2.1⟩

/-! ## Runs of `update` -/

theorem getNewChangeFile_sorted (A L : GoMap) : (getNewChangeFile A L).Pairwise strLe := by
  rw [getNewChangeFile_eq]
  exact sortStrings_sorted _

/-- Once the applied keys are those of `A` and the first `i` pending files,
the pending sequence is the rest of the old one. -/
theorem getNewChangeFile_drop (A A2 L : GoMap) (i : Nat)
    (hA2 : ∀ k, k ∈ A2.keys ↔ k ∈ A.keys ∨ k ∈ (getNewChangeFile A L).take i) :
    getNewChangeFile A2 L = (getNewChangeFile A L).drop i := by
  have hnd := getNewChangeFile_nodup A L
  have hsplit := List.take_append_drop i (getNewChangeFile A L)
  have hdisj : List.Disjoint ((getNewChangeFile A L).take i) ((getNewChangeFile A L).drop i) :=
    List.disjoint_of_nodup_append (by rw [hsplit]; exact hnd)
  rw [getNewChangeFile_eq A2 L]
  apply sortStrings_unique
  · apply (List.perm_ext_iff_of_nodup
      (List.Nodup.sublist (List.drop_sublist i _) hnd) (List.Nodup.filter _ L.nodup)).2
    intro x
    rw [List.mem_filter]
    constructor
    · intro hx
      have hxp := (mem_getNewChangeFile A L x).1 (List.mem_of_mem_drop hx)
      refine ⟨hxp.1, ?_⟩
      have hx2 : x ∉ A2.keys := by
        rw [hA2]
        rintro (h | h)
        · exact hxp.2 h
        · exact hdisj h hx
      simpa [GoMap.has] using hx2
    · rintro ⟨hxL, hx2⟩
      have hx2' : x ∉ A2.keys := by simpa [GoMap.has] using hx2
      rw [hA2, not_or] at hx2'
      have hxp : x ∈ getNewChangeFile A L := (mem_getNewChangeFile A L x).2 ⟨hxL, hx2'.1⟩
      rw [← hsplit, List.mem_append] at hxp
      rcases hxp with h | h
      · exact absurd h hx2'.2
      · exact h
  · exact List.Pairwise.sublist (List.drop_sublist i _) (getNewChangeFile_sorted A L)

/-- Nothing is pending when every local key is an applied key. -/
theorem getNewChangeFile_eq_nil (A L : GoMap) (h : ∀ k ∈ L.keys, k ∈ A.keys) :
    getNewChangeFile A L = [] := by
  rw [getNewChangeFile_eq]
  have : L.keys.filter (fun f => !A.has f) = [] := by
    rw [List.filter_eq_nil_iff]
    intro a ha
    simp [GoMap.has, h a ha]
  rw [this]
  rfl

theorem mem_getAlreadyUpdateFileList (env : Env) (w : World) (k : GoString) :
    k ∈ (getAlreadyUpdateFileList env w).keys
      ↔ k ∈ w.records ∧ (env.findFails = false ∨ env.findScanned k = true) := by
  unfold getAlreadyUpdateFileList
  rw [GoMap.mem_foldl_set]
  cases h : env.findFails <;> simp [GoMap.empty, List.mem_filter]

theorem update_eq {env : Env} {L : GoMap} (hL : getAllChangeFileList env = some L)
    (w : World) :
    update env w =
      if (getNewChangeFile (getAlreadyUpdateFileList env w) L).length = 0 then
        (Outcome.returned, { w with out := w.out ++ [Line.nothing] })
      else doSqlUpdate env (getNewChangeFile (getAlreadyUpdateFileList env w) L) w := by
  simp only [update, hL]

theorem newUpdateFileList_eq {env : Env} {L : GoMap} (hL : getAllChangeFileList env = some L)
    (w : World) :
    newUpdateFileList env w = some (getNewChangeFile (getAlreadyUpdateFileList env w) L) := by
  simp only [newUpdateFileList, hL]

/-- A read error of the directory ends `update` before anything is done. -/
theorem update_readDir_error (env : Env) (w : World) (h : env.readDir = none) :
    update env w = (Outcome.panicReadDir, w) ∧ newUpdateFileList env w = none := by
  simp [update, newUpdateFileList, getAllChangeFileList, h]

/-- A run of `update` that returns has recorded the whole pending sequence
and nothing else. -/
theorem update_returned_records {env : Env} {L : GoMap}
    (hL : getAllChangeFileList env = some L) (w : World)
    (h : (update env w).1 = Outcome.returned) :
    (update env w).2.records
      = w.records ++ getNewChangeFile (getAlreadyUpdateFileList env w) L := by
  rw [update_eq hL] at h ⊢
  by_cases h0 : (getNewChangeFile (getAlreadyUpdateFileList env w) L).length = 0
  · rw [if_pos h0, List.length_eq_zero.1 h0]
    simp
  · rw [if_neg h0] at h ⊢
    obtain ⟨e1, e2, _, _⟩ :=
      doSqlUpdate_eq_loop env (getNewChangeFile (getAlreadyUpdateFileList env w) L) w
    rw [e1] at h
    rw [e2, loop_all_ok _ (loop_returned _ w h)]
    rfl

/-- A run of `update` with nothing pending runs no client and inserts no
record. -/
theorem update_nothing_pending {env : Env} {L : GoMap}
    (hL : getAllChangeFileList env = some L) (w : World)
    (h : getNewChangeFile (getAlreadyUpdateFileList env w) L = []) :
    update env w = (Outcome.returned, { w with out := w.out ++ [Line.nothing] }) := by
  rw [update_eq hL, h]
  rfl

/-- Resuming after a client failure, when the queries of both runs succeed.
Let `p` be the pending sequence of a run of `update` whose two reads succeed,
the applied set being the records of the store and the local set `L`.  If
the client succeeds on the first `i` files of `p` and fails on
`p[i]`, and the record inserts of those first `i` files succeed, then after
the run the records are the old ones followed by the first `i` files of `p`,
`p[i]` is not recorded, and a later run over the same local set whose query
succeeds computes the pending sequence `p` without its first `i` files. -/
theorem update_resumes_at_failed_file (env env2 : Env) (w : World) (L : GoMap)
    (p : List GoString) (i : Nat)
    (hfind : env.findFails = false) (hL : getAllChangeFileList env = some L)
    (hp : getNewChangeFile (getAlreadyUpdateFileList env w) L = p)
    (hi : i < p.length)
    (hok : ∀ f ∈ p.take i, clientSucceeds env f = true)
    (hfail : clientFails env p[i] = true)
    (hdb : ∀ f ∈ p.take i, env.dbCreate f = true)
    (hfind2 : env2.findFails = false) (hL2 : getAllChangeFileList env2 = some L) :
    (update env w).2.records = w.records ++ p.take i ∧
    p[i] ∉ (update env w).2.records ∧
    newUpdateFileList env2 (update env w).2 = some (p.drop i) := by
  have hsplit : p.take i ++ p[i] :: p.drop (i + 1) = p := by
    rw [← List.drop_eq_getElem_cons hi, List.take_append_drop]
  have hpre : ∀ g ∈ p.take i, stepOk env g = true := by
    intro g hg
    simp [stepOk, hok g hg, hdb g hg]
  have hrec : (update env w).2.records = w.records ++ p.take i := by
    have h0 : ¬ p.length = 0 := by omega
    rw [update_eq hL, hp, if_neg h0]
    obtain ⟨_, e2, _, _⟩ := doSqlUpdate_eq_loop env p w
    rw [e2]
    conv => lhs; rw [← hsplit]
    rw [loop_prefix_ok _ hpre, loop_cons_execFails hfail]
    rfl
  have hA2 : ∀ k, k ∈ (getAlreadyUpdateFileList env2 (update env w).2).keys ↔
      k ∈ (getAlreadyUpdateFileList env w).keys ∨
        k ∈ (getNewChangeFile (getAlreadyUpdateFileList env w) L).take i := by
    intro k
    rw [mem_getAlreadyUpdateFileList, mem_getAlreadyUpdateFileList, hrec, hp, List.mem_append]
    simp [hfind, hfind2]
  refine ⟨hrec, ?_, ?_⟩
  · rw [hrec, List.mem_append, not_or]
    have hmem : p[i] ∈ getNewChangeFile (getAlreadyUpdateFileList env w) L := by
      rw [hp]; exact List.getElem_mem hi
    have hnot := ((mem_getNewChangeFile _ _ _).1 hmem).2
    rw [mem_getAlreadyUpdateFileList] at hnot
    refine ⟨fun h => hnot ⟨h, Or.inl hfind⟩, fun h => ?_⟩
    have hnd : p.Nodup := hp ▸ getNewChangeFile_nodup _ _
    have hdisj : List.Disjoint (p.take i) (p.drop i) :=
      List.disjoint_of_nodup_append (by rw [List.take_append_drop]; exact hnd)
    refine hdisj h ?_
    rw [List.drop_eq_getElem_cons hi]
    exact List.mem_cons_self _ _
  · rw [newUpdateFileList_eq hL2,
      getNewChangeFile_drop (getAlreadyUpdateFileList env w) _ L i hA2, hp]

/-- The resumed run at the directory of `001.sql` and `002.sql` with nothing
recorded and the client failing on `002.sql`, both queries succeeding:
afterwards `001.sql` is the only record and
the next run has exactly `002.sql` pending. -/
theorem update_resumes_at_failed_file_witness :
    (update (envClientFails (str "002.sql")) emptyWorld).2.records = [str "001.sql"] ∧
    str "002.sql" ∉ (update (envClientFails (str "002.sql")) emptyWorld).2.records ∧
    newUpdateFileList (envClientFails (str "002.sql"))
      (update (envClientFails (str "002.sql")) emptyWorld).2 = some [str "002.sql"] :=
  update_resumes_at_failed_file (envClientFails (str "002.sql"))
    (envClientFails (str "002.sql")) emptyWorld
    (GoMap.ofList [str "001.sql", str "002.sql"]) [str "001.sql", str "002.sql"] 1
    (by decide) (by decide) (by decide) (by decide) (by decide) (by decide) (by decide)
    (by decide) (by decide)

/-- Idempotence when the query of the second run succeeds: after a run of
`update` that returns (every client run and every record insert of it
succeeded), a second run over the same local set whose query succeeds has an empty pending sequence, runs the client on no file,
inserts no record, and returns. -/
theorem update_idempotent (env env2 : Env) (w : World) (L : GoMap)
    (hL : getAllChangeFileList env = some L)
    (hrun : (update env w).1 = Outcome.returned)
    (hfind2 : env2.findFails = false) (hL2 : getAllChangeFileList env2 = some L) :
    newUpdateFileList env2 (update env w).2 = some [] ∧
    (update env2 (update env w).2).2.invoked = (update env w).2.invoked ∧
    (update env2 (update env w).2).2.records = (update env w).2.records ∧
    (update env2 (update env w).2).1 = Outcome.returned := by
  have hnil : getNewChangeFile (getAlreadyUpdateFileList env2 (update env w).2) L = [] := by
    apply getNewChangeFile_eq_nil
    intro k hk
    rw [mem_getAlreadyUpdateFileList, update_returned_records hL w hrun, List.mem_append]
    refine ⟨?_, Or.inl hfind2⟩
    by_cases hA : k ∈ (getAlreadyUpdateFileList env w).keys
    · exact Or.inl ((mem_getAlreadyUpdateFileList env w k).1 hA).1
    · exact Or.inr ((mem_getNewChangeFile _ _ _).2 ⟨hk, hA⟩)
  rw [newUpdateFileList_eq hL2, update_nothing_pending hL2 _ hnil, hnil]
  exact ⟨rfl, rfl, rfl, rfl⟩

/-- Two runs at the directory of `001.sql`, `002.sql` and `003.sql` with
nothing recorded and every step succeeding, the query included: the first
run records the three files,
the second finds nothing pending and leaves records and client runs as they
are. -/
theorem update_idempotent_witness :
    (update (envAllSucceed) emptyWorld).2.records
      = [str "001.sql", str "002.sql", str "003.sql"] ∧
    newUpdateFileList (envAllSucceed) (update (envAllSucceed) emptyWorld).2
      = some [] ∧
    (update (envAllSucceed) (update (envAllSucceed) emptyWorld).2).2.invoked
      = (update (envAllSucceed) emptyWorld).2.invoked ∧
    (update (envAllSucceed) (update (envAllSucceed) emptyWorld).2).2.records
      = (update (envAllSucceed) emptyWorld).2.records :=
  have h := update_idempotent (envAllSucceed) (envAllSucceed) emptyWorld
    (GoMap.ofList [str "001.sql", str "002.sql", str "003.sql"])
    (by decide) (by decide) (by decide) (by decide)
  ⟨by decide, h.1, h.2.1, h.2.2.1⟩

/-- C4, at a later run whose query for the applied records fails.  The
first run, over `001.sql` and `002.sql` with nothing recorded and the client
failing on `002.sql`, leaves `001.sql` as the only record.  A later run over
the same directory in which `db.Find` fails takes the applied set to be
empty: its pending sequence is `001.sql`, `002.sql` and not `002.sql` alone,
and it runs the client on the recorded `001.sql` again.  With the query
succeeding the pending sequence is `002.sql`. -/
theorem update_resume_lost_on_find_error :
    (update (envClientFails (str "002.sql")) emptyWorld).2.records = [str "001.sql"] ∧
    (update (envClientFails (str "002.sql")) emptyWorld).2.invoked
      = [str "001.sql", str "002.sql"] ∧
    (withFindError (envClientFails (str "002.sql"))).findFails = true ∧
    newUpdateFileList (withFindError (envClientFails (str "002.sql")))
        (update (envClientFails (str "002.sql")) emptyWorld).2
      = some [str "001.sql", str "002.sql"] ∧
    (update (withFindError (envClientFails (str "002.sql")))
        (update (envClientFails (str "002.sql")) emptyWorld).2).2.invoked
      = [str "001.sql", str "002.sql", str "001.sql"] ∧
    newUpdateFileList (envClientFails (str "002.sql"))
        (update (envClientFails (str "002.sql")) emptyWorld).2
      = some [str "002.sql"] := by
  decide

/-- C5, at a second run whose query for the applied records fails.  The
first run, over `001.sql`, `002.sql` and `003.sql` with nothing recorded and
every step succeeding, returns and records the three files.  A second run
over the same directory in which `db.Find` fails takes the applied set to be
empty: its pending sequence is the three files again, not the empty
sequence, and it runs the client on the recorded `001.sql`.  With the query
succeeding nothing is pending. -/
theorem update_not_idempotent_on_find_error :
    (update envAllSucceed emptyWorld).1 = Outcome.returned ∧
    (update envAllSucceed emptyWorld).2.records
      = [str "001.sql", str "002.sql", str "003.sql"] ∧
    (withFindError envAllSucceed).findFails = true ∧
    newUpdateFileList (withFindError envAllSucceed) (update envAllSucceed emptyWorld).2
      = some [str "001.sql", str "002.sql", str "003.sql"] ∧
    (update (withFindError envAllSucceed) (update envAllSucceed emptyWorld).2).2.invoked
      = (update envAllSucceed emptyWorld).2.invoked ++ [str "001.sql"] ∧
    newUpdateFileList envAllSucceed (update envAllSucceed emptyWorld).2 = some [] := by
  decide

/-! ## The extension of a name -/

/-- A list with an element that satisfies `q` splits at the last such
element. -/
theorem split_at_last (q : Nat → Bool) (l : List Nat) (h : l.any q = true) :
    ∃ s1 c s2, l = s1 ++ c :: s2 ∧ q c = true ∧ s2.any q = false := by
  induction l with
  | nil => simp at h
  | cons x xs ih =>
    cases hxs : xs.any q with
    | true =>
      obtain ⟨s1, c, s2, e, hc, hs2⟩ := ih hxs
      exact ⟨x :: s1, c, s2, by rw [e]; rfl, hc, hs2⟩
    | false =>
      have hx : q x = true := by simpa [hxs] using h
      exact ⟨[], x, xs, rfl, hx, hxs⟩

theorem getD_append_length (pre xs : List Nat) (x : Nat) :
    (pre ++ x :: xs).getD pre.length 0 = x := by
  rw [List.getD_eq_getElem?_getD, List.getElem?_append_right (Nat.le_refl _)]
  simp

/-- The loop of `filepath.Ext` walks over bytes that are neither a dot nor a
separator. -/
theorem extFrom_skip (goos : GOOS) (suf : GoString)
    (h : ∀ x ∈ suf, isPathSeparator goos x = false ∧ x ≠ 46) (pre : GoString) :
    extFrom goos (pre ++ suf) (pre.length + suf.length)
      = extFrom goos (pre ++ suf) pre.length := by
  induction suf generalizing pre with
  | nil => rfl
  | cons x xs ih =>
    have hx := h x (List.mem_cons_self x xs)
    have hxs : ∀ y ∈ xs, isPathSeparator goos y = false ∧ y ≠ 46 :=
      fun y hy => h y (List.mem_cons_of_mem x hy)
    have e : pre ++ x :: xs = (pre ++ [x]) ++ xs := by simp
    have hlen : pre.length + (x :: xs).length = (pre ++ [x]).length + xs.length := by
      simp; omega
    rw [hlen, e, ih hxs (pre ++ [x]), ← e]
    have hl : (pre ++ [x]).length = pre.length + 1 := by simp
    rw [hl]
    simp only [extFrom, getD_append_length, hx.1, hx.2, if_false, Bool.false_eq_true]

theorem isPathSeparator_dot (goos : GOOS) : isPathSeparator goos 46 = false := by
  cases goos <;> rfl

theorem filepathExt_at_dot (goos : GOOS) (pre suf : GoString)
    (h : ∀ x ∈ suf, isPathSeparator goos x = false ∧ x ≠ 46) :
    filepathExt goos (pre ++ 46 :: suf) = 46 :: suf := by
  unfold filepathExt
  have e : pre ++ 46 :: suf = (pre ++ [46]) ++ suf := by simp
  have hlen : (pre ++ 46 :: suf).length = (pre ++ [46]).length + suf.length := by
    simp; omega
  rw [hlen, e, extFrom_skip goos suf h (pre ++ [46]), ← e]
  have hl : (pre ++ [46]).length = pre.length + 1 := by simp
  rw [hl]
  simp only [extFrom, getD_append_length, isPathSeparator_dot, if_true, if_false,
    Bool.false_eq_true, List.drop_left' rfl]

theorem filepathExt_at_separator (goos : GOOS) (pre suf : GoString) (c : Nat)
    (hc : isPathSeparator goos c = true)
    (h : ∀ x ∈ suf, isPathSeparator goos x = false ∧ x ≠ 46) :
    filepathExt goos (pre ++ c :: suf) = [] := by
  unfold filepathExt
  have e : pre ++ c :: suf = (pre ++ [c]) ++ suf := by simp
  have hlen : (pre ++ c :: suf).length = (pre ++ [c]).length + suf.length := by
    simp; omega
  rw [hlen, e, extFrom_skip goos suf h (pre ++ [c]), ← e]
  have hl : (pre ++ [c]).length = pre.length + 1 := by simp
  rw [hl]
  simp only [extFrom, getD_append_length, hc, if_true]

theorem extFrom_no_dot (goos : GOOS) (path : GoString) (h : 46 ∉ path) (i : Nat) :
    extFrom goos path i = [] := by
  induction i with
  | zero => rfl
  | succ i ih =>
    have hne : path.getD i 0 ≠ 46 := by
      intro heq
      rw [List.getD_eq_getElem?_getD] at heq
      cases hget : path[i]? with
      | none => rw [hget] at heq; simp at heq
      | some v =>
        rw [hget] at heq
        simp at heq
        exact h (heq ▸ List.getElem?_mem hget)
    simp only [extFrom, hne, if_false, ih]
    split <;> rfl

theorem lastDotSuffix_no_dot (path : GoString) (h : 46 ∉ path) : lastDotSuffix path = [] := by
  induction path with
  | nil => rfl
  | cons c cs ih =>
    rw [List.mem_cons, not_or] at h
    have hc : c ≠ 46 := fun e => h.1 e.symm
    simp [lastDotSuffix, ih h.2, hc]

theorem lastDotSuffix_at_dot (pre suf : GoString) (h : 46 ∉ suf) :
    lastDotSuffix (pre ++ 46 :: suf) = 46 :: suf := by
  induction pre with
  | nil => simp [lastDotSuffix, lastDotSuffix_no_dot suf h]
  | cons c cs ih => simp [lastDotSuffix, ih]

/-- The result of `filepath.Ext` is the suffix from the last dot on, unless a
path separator follows that dot. -/
theorem filepathExt_eq (goos : GOOS) (path : GoString) :
    filepathExt goos path
      = if (lastDotSuffix path).any (isPathSeparator goos) then [] else lastDotSuffix path := by
  by_cases hdot : 46 ∈ path
  · have hany : path.any (fun c => c == 46) = true := by
      rw [List.any_eq_true]; exact ⟨46, hdot, by simp⟩
    obtain ⟨pre, c, suf, e, hc, hsuf⟩ := split_at_last _ path hany
    have hc' : c = 46 := by simpa using hc
    subst hc'
    have hsuf' : ∀ x ∈ suf, x ≠ 46 := by
      intro x hx
      have := (List.any_eq_false.1 hsuf) x hx
      simpa using this
    have hnot : 46 ∉ suf := fun hmem => hsuf' 46 hmem rfl
    rw [e, lastDotSuffix_at_dot pre suf hnot]
    cases hsep : suf.any (isPathSeparator goos) with
    | false =>
      have hns : ∀ x ∈ suf, isPathSeparator goos x = false ∧ x ≠ 46 := by
        intro x hx
        refine ⟨?_, hsuf' x hx⟩
        have := (List.any_eq_false.1 hsep) x hx
        simpa using this
      rw [filepathExt_at_dot goos pre suf hns]
      simp [isPathSeparator_dot, hsep]
    | true =>
      obtain ⟨s1, d, s2, e2, hd, hs2⟩ := split_at_last _ suf hsep
      have hns : ∀ x ∈ s2, isPathSeparator goos x = false ∧ x ≠ 46 := by
        intro x hx
        refine ⟨?_, hsuf' x (by rw [e2]; simp [hx])⟩
        have := (List.any_eq_false.1 hs2) x hx
        simpa using this
      have e3 : pre ++ 46 :: suf = (pre ++ 46 :: s1) ++ d :: s2 := by rw [e2]; simp
      rw [e3, filepathExt_at_separator goos _ s2 d hd hns]
      simp [isPathSeparator_dot, hsep]
  · rw [lastDotSuffix_no_dot path hdot]
    unfold filepathExt
    rw [extFrom_no_dot goos path hdot]
    rfl

theorem str_sql : str ".sql" = [46, 115, 113, 108] := by decide

theorem le_lowerByte (c : Nat) : c ≤ lowerByte c := by
  unfold lowerByte
  split <;> omega

/-- A string whose lowered bytes spell `.sql` has four bytes, each the dot or
a letter of `sql` in either case. -/
theorem bytes_of_lowered_sql {e : GoString} (h : e.map lowerByte = [46, 115, 113, 108]) :
    ∀ c ∈ e, c = 46 ∨ c = 115 ∨ c = 83 ∨ c = 113 ∨ c = 81 ∨ c = 108 ∨ c = 76 := by
  intro c hc
  have hmem : lowerByte c ∈ e.map lowerByte := List.mem_map_of_mem lowerByte hc
  rw [h] at hmem
  simp only [List.mem_cons, List.mem_singleton, List.not_mem_nil, or_false] at hmem
  unfold lowerByte at hmem
  split at hmem <;> omega

theorem toLower_eq_sql (unicodeLower : GoString → GoString)
    (hlower : ∀ s, s.all (fun c => decide (c < 128)) = false → unicodeLower s ≠ str ".sql")
    (e : GoString) :
    toLower unicodeLower e = [46, 115, 113, 108] ↔ e.map lowerByte = [46, 115, 113, 108] := by
  unfold toLower
  cases hall : e.all (fun c => decide (c < 128)) with
  | true => simp
  | false =>
    simp only [Bool.false_eq_true, if_false]
    constructor
    · intro h
      exact absurd (str_sql ▸ h) (hlower e hall)
    · intro h
      exfalso
      obtain ⟨c, hc, hnot⟩ := List.all_eq_false.1 hall
      have := bytes_of_lowered_sql h c hc
      simp only [decide_eq_true_eq] at hnot
      omega

theorem no_separator_of_lowered_sql (goos : GOOS) {e : GoString}
    (h : e.map lowerByte = [46, 115, 113, 108]) : e.any (isPathSeparator goos) = false := by
  rw [List.any_eq_false]
  intro c hc hsep
  have := bytes_of_lowered_sql h c hc
  cases goos <;> simp [isPathSeparator] at hsep <;> omega

/-- The lowered byte is the same character up to case and is no capital
letter. -/
theorem lowerByte_spec (c : Nat) :
    sameIgnoreCase c (lowerByte c) = true ∧ ¬ (65 ≤ lowerByte c ∧ lowerByte c ≤ 90) := by
  unfold sameIgnoreCase lowerByte
  simp only [Bool.or_eq_true, Bool.and_eq_true, beq_iff_eq, decide_eq_true_eq]
  split <;> omega

/-- On a string of ASCII bytes `strings.ToLower` returns the string that is
equal to it up to case and has no capital letter. -/
theorem toLower_ascii (unicodeLower : GoString → GoString) (s : GoString)
    (h : s.all (fun c => decide (c < 128)) = true) :
    eqIgnoreCase s (toLower unicodeLower s) = true ∧
    ∀ c ∈ toLower unicodeLower s, ¬ (65 ≤ c ∧ c ≤ 90) := by
  unfold toLower
  rw [if_pos h]
  constructor
  · clear h
    induction s with
    | nil => rfl
    | cons x xs ih => simp [eqIgnoreCase, (lowerByte_spec x).1, ih]
  · intro c hc
    obtain ⟨x, _, hx⟩ := List.mem_map.1 hc
    rw [← hx]
    exact (lowerByte_spec x).2

/-- The library models on sample inputs: `filepath.Ext` stops at a path
separator, which `\` is on Windows only; `strings.ToLower` lowers the ASCII
capitals and nothing else. -/
theorem library_samples :
    filepathExt GOOS.linux (str "a.b/c") = [] ∧
    filepathExt GOOS.linux (str "a.b" ++ [92] ++ str "c") = str ".b" ++ [92] ++ str "c" ∧
    filepathExt GOOS.windows (str "a.b" ++ [92] ++ str "c") = [] ∧
    filepathExt GOOS.windows (str "a.b/c") = [] ∧
    filepathExt GOOS.linux (str "dump.tar.SQL") = str ".SQL" ∧
    filepathExt GOOS.linux (str ".sql") = str ".sql" ∧
    filepathExt GOOS.linux (str "sql") = [] ∧
    toLower (fun s => s) (str "@AZ[az.SQL") = str "@az[az.sql" ∧
    toLower (fun s => s) ([64, 65, 90, 91, 96, 97, 122, 123]) = [64, 97, 122, 91, 96, 97, 122, 123] := by
  decide

theorem sameIgnoreCase_iff (a t : Nat) (ht : t = 46 ∨ t = 115 ∨ t = 113 ∨ t = 108) :
    sameIgnoreCase a t = true ↔ lowerByte a = t := by
  unfold sameIgnoreCase lowerByte
  simp only [Bool.or_eq_true, Bool.and_eq_true, beq_iff_eq, decide_eq_true_eq]
  constructor
  · intro h
    split <;> omega
  · intro h
    split at h <;> omega

theorem eqIgnoreCase_sql_iff (e : GoString) :
    eqIgnoreCase e [46, 115, 113, 108] = true ↔ e.map lowerByte = [46, 115, 113, 108] := by
  match e with
  | [] => simp [eqIgnoreCase]
  | [_] => simp [eqIgnoreCase]
  | [_, _] => simp [eqIgnoreCase]
  | [_, _, _] => simp [eqIgnoreCase]
  | [a, b, c, d] =>
    simp only [eqIgnoreCase, Bool.and_eq_true, Bool.and_true, List.map_cons, List.map_nil,
      List.cons.injEq, and_true,
      sameIgnoreCase_iff a 46 (Or.inl rfl),
      sameIgnoreCase_iff b 115 (Or.inr (Or.inl rfl)),
      sameIgnoreCase_iff c 113 (Or.inr (Or.inr (Or.inl rfl))),
      sameIgnoreCase_iff d 108 (Or.inr (Or.inr (Or.inr rfl)))]
  | _ :: _ :: _ :: _ :: _ :: _ => simp [eqIgnoreCase]

theorem sameIgnoreCase_dot (a : Nat) : sameIgnoreCase a 46 = true ↔ a = 46 := by
  unfold sameIgnoreCase
  simp only [Bool.or_eq_true, Bool.and_eq_true, beq_iff_eq, decide_eq_true_eq]
  omega

theorem sameIgnoreCase_s (a : Nat) : sameIgnoreCase a 115 = true ↔ a = 115 ∨ a = 83 := by
  unfold sameIgnoreCase
  simp only [Bool.or_eq_true, Bool.and_eq_true, beq_iff_eq, decide_eq_true_eq]
  omega

theorem sameIgnoreCase_q (a : Nat) : sameIgnoreCase a 113 = true ↔ a = 113 ∨ a = 81 := by
  unfold sameIgnoreCase
  simp only [Bool.or_eq_true, Bool.and_eq_true, beq_iff_eq, decide_eq_true_eq]
  omega

theorem sameIgnoreCase_l (a : Nat) : sameIgnoreCase a 108 = true ↔ a = 108 ∨ a = 76 := by
  unfold sameIgnoreCase
  simp only [Bool.or_eq_true, Bool.and_eq_true, beq_iff_eq, decide_eq_true_eq]
  omega

/-- The strings equal to `.sql` without regard to case are its eight
spellings. -/
theorem eqIgnoreCase_sql_spellings (e : GoString) :
    eqIgnoreCase e (str ".sql") = true ↔ e ∈ sqlSpellings := by
  have hs : sqlSpellings = [[46, 115, 113, 108], [46, 115, 113, 76], [46, 115, 81, 108],
      [46, 115, 81, 76], [46, 83, 113, 108], [46, 83, 113, 76], [46, 83, 81, 108],
      [46, 83, 81, 76]] := by decide
  rw [hs, str_sql]
  match e with
  | [] => simp [eqIgnoreCase]
  | [_] => simp [eqIgnoreCase]
  | [_, _] => simp [eqIgnoreCase]
  | [_, _, _] => simp [eqIgnoreCase]
  | [a, b, c, d] =>
    simp only [eqIgnoreCase, Bool.and_eq_true, Bool.and_true, sameIgnoreCase_dot,
      sameIgnoreCase_s, sameIgnoreCase_q, sameIgnoreCase_l, List.mem_cons, List.cons.injEq,
      and_true, List.not_mem_nil, or_false]
    constructor
    · rintro ⟨rfl, rfl | rfl, rfl | rfl, rfl | rfl⟩ <;> simp
    · rintro (h | h | h | h | h | h | h | h) <;>
        obtain ⟨rfl, rfl, rfl, rfl⟩ := h <;> simp
  | _ :: _ :: _ :: _ :: _ :: _ =>
    simp only [eqIgnoreCase, Bool.and_false, Bool.false_eq_true, List.mem_cons,
      List.cons.injEq, List.not_mem_nil, List.cons_ne_nil, and_false, or_false]

/-- `isSqlFile` accepts exactly the names whose suffix from the last dot on
is `.sql` in any mix of upper and lower case. -/
theorem isSqlFile_iff (goos : GOOS) (unicodeLower : GoString → GoString)
    (hlower : ∀ s, s.all (fun c => decide (c < 128)) = false → unicodeLower s ≠ str ".sql")
    (name : GoString) :
    isSqlFile goos unicodeLower name = true
      ↔ eqIgnoreCase (lastDotSuffix name) (str ".sql") = true := by
  rw [str_sql, eqIgnoreCase_sql_iff]
  cases name with
  | nil => simp [isSqlFile, lastDotSuffix]
  | cons c cs =>
    have hlen : ¬ (c :: cs).length = 0 := by simp
    simp only [isSqlFile, hlen, if_false, beq_iff_eq, str_sql, filepathExt_eq]
    cases hsep : (lastDotSuffix (c :: cs)).any (isPathSeparator goos) with
    | true =>
      simp only [if_true]
      constructor
      · intro h
        simp [toLower] at h
      · intro h
        rw [no_separator_of_lowered_sql goos h] at hsep
        cases hsep
    | false =>
      simp only [Bool.false_eq_true, if_false]
      exact toLower_eq_sql unicodeLower hlower _

theorem mem_changeFilesOf_foldl (goos : GOOS) (unicodeLower : GoString → GoString)
    (list : List FileInfo) (m : GoMap) (name : GoString) :
    name ∈ (list.foldl
        (fun changeFileList f =>
          if f.isDir then changeFileList
          else
            let tmpFileName := f.name
            if !isSqlFile goos unicodeLower tmpFileName then changeFileList
            else changeFileList.set tmpFileName) m).keys
      ↔ name ∈ m.keys ∨
        ∃ e ∈ list, e.name = name ∧ e.isDir = false ∧ isSqlFile goos unicodeLower name = true := by
  induction list generalizing m with
  | nil => simp
  | cons f fs ih =>
    rw [List.foldl_cons, ih]
    cases hd : f.isDir with
    | true =>
      simp only [if_true, List.mem_cons, exists_eq_or_imp, hd, Bool.true_eq_false, false_and,
        and_false, false_or]
    | false =>
      cases hs : isSqlFile goos unicodeLower f.name with
      | false =>
        simp only [hs, Bool.false_eq_true, if_false, Bool.not_false, if_true, List.mem_cons,
          exists_eq_or_imp, hd, true_and]
        constructor
        · rintro (h | h)
          · exact Or.inl h
          · exact Or.inr (Or.inr h)
        · rintro (h | ⟨e, h⟩ | h)
          · exact Or.inl h
          · rw [← e, hs] at h; cases h
          · exact Or.inr h
      | true =>
        simp only [hs, Bool.false_eq_true, if_false, Bool.not_true, List.mem_cons,
          exists_eq_or_imp, hd, true_and, GoMap.mem_set]
        constructor
        · rintro ((h | h) | h)
          · exact Or.inl h
          · exact Or.inr (Or.inl ⟨h.symm, h ▸ hs⟩)
          · exact Or.inr (Or.inr h)
        · rintro (h | ⟨e, _⟩ | h)
          · exact Or.inl (Or.inl h)
          · exact Or.inl (Or.inr e.symm)
          · exact Or.inr h

/-- C6: when the directory can be read, `getAllChangeFileList` returns the
set of exactly those names of the listing that belong to an entry which is
not a directory and whose extension, the suffix from the last dot of the
name on, equals `.sql` without regard to the case of the letters, that is, is
one of the eight spellings of `.sql`; every other entry is left out.  The
library's lower-casing of a string with a byte outside ASCII is taken as
given, with the one property that it never yields the four bytes `.sql`. -/
theorem getAllChangeFileList_keeps_sql_files (env : Env) (list : List FileInfo)
    (hread : env.readDir = some list)
    (hlower : ∀ s, s.all (fun c => decide (c < 128)) = false →
      env.unicodeLower s ≠ str ".sql") :
    ∃ m, getAllChangeFileList env = some m ∧
      (∀ name, name ∈ m.keys ↔
        ∃ e ∈ list, e.name = name ∧ e.isDir = false ∧
          eqIgnoreCase (lastDotSuffix name) (str ".sql") = true) ∧
      (∀ name, name ∈ m.keys ↔
        ∃ e ∈ list, e.name = name ∧ e.isDir = false ∧ lastDotSuffix name ∈ sqlSpellings) := by
  refine ⟨changeFilesOf env.goos env.unicodeLower list, ?_, ?_, ?_⟩
  · simp only [getAllChangeFileList, hread]
  · intro name
    unfold changeFilesOf
    rw [mem_changeFilesOf_foldl, isSqlFile_iff env.goos env.unicodeLower hlower]
    simp [GoMap.empty]
  · intro name
    unfold changeFilesOf
    rw [mem_changeFilesOf_foldl, isSqlFile_iff env.goos env.unicodeLower hlower,
      eqIgnoreCase_sql_spellings]
    simp [GoMap.empty]

/-- C6 at a listing with the files `003_data.SQL`, `004_idx.Sql`,
`notes.sql.bak`, `readme.txt`, `sql` and the directories `old.sql` and
`archive`: the set returned holds `003_data.SQL` and `004_idx.Sql` only.  And
at the listing `002_add_col.sql`, `001_init.sql`, `readme.txt` with nothing
recorded the pending sequence is `001_init.sql`, `002_add_col.sql`. -/
theorem getAllChangeFileList_keeps_sql_files_witness :
    newUpdateFileList envScenario emptyWorld
      = some [str "001_init.sql", str "002_add_col.sql"] ∧
    getAllChangeFileList envMixedListing
      = some (GoMap.ofList [str "003_data.SQL", str "004_idx.Sql"]) ∧
    eqIgnoreCase (lastDotSuffix (str "003_data.SQL")) (str ".sql") = true ∧
    eqIgnoreCase (lastDotSuffix (str "notes.sql.bak")) (str ".sql") = false ∧
    ∃ m, getAllChangeFileList envMixedListing = some m ∧
      (∀ name, name ∈ m.keys ↔
        ∃ e ∈ [FileInfo.mk (str "003_data.SQL") false, FileInfo.mk (str "004_idx.Sql") false,
            FileInfo.mk (str "archive") true, FileInfo.mk (str "notes.sql.bak") false,
            FileInfo.mk (str "old.sql") true, FileInfo.mk (str "readme.txt") false,
            FileInfo.mk (str "sql") false],
          e.name = name ∧ e.isDir = false ∧
            eqIgnoreCase (lastDotSuffix name) (str ".sql") = true) ∧
      (∀ name, name ∈ m.keys ↔
        ∃ e ∈ [FileInfo.mk (str "003_data.SQL") false, FileInfo.mk (str "004_idx.Sql") false,
            FileInfo.mk (str "archive") true, FileInfo.mk (str "notes.sql.bak") false,
            FileInfo.mk (str "old.sql") true, FileInfo.mk (str "readme.txt") false,
            FileInfo.mk (str "sql") false],
          e.name = name ∧ e.isDir = false ∧ lastDotSuffix name ∈ sqlSpellings) :=
  ⟨by decide, by decide, by decide, by decide,
    getAllChangeFileList_keeps_sql_files envMixedListing _ rfl
      (fun s hs heq => by
        have hs' : (str ".sql").all (fun c => decide (c < 128)) = false := heq ▸ hs
        exact absurd hs' (by decide))⟩

/-- C7, at a run in which the query for the applied records fails: the
error is not looked at, the applied set is taken to be empty, and `update`
goes on to compute `001_init.sql` as pending and to run the client on it
although its record exists; the same run with the query succeeding has
nothing pending. -/
theorem update_runs_after_find_error :
    envFindFails.findFails = true ∧
    str "001_init.sql" ∈ worldApplied.records ∧
    newUpdateFileList envFindFails worldApplied = some [str "001_init.sql"] ∧
    (update envFindFails worldApplied).2.invoked = [str "001_init.sql"] ∧
    (update envFindFails worldApplied).1 = Outcome.fatalRecord ∧
    newUpdateFileList { envFindFails with findFails := false } worldApplied = some [] := by
  decide

/-- C10, at the flag values `prod.yaml` and `config.yaml`: `loadConfig` asks
for the same file for both, the one named `config` of type `yaml` in the
working directory; its argument is not used. -/
theorem loadConfig_ignores_configFileName :
    str "prod.yaml" ≠ str "config.yaml" ∧
    loadConfig (str "prod.yaml") = loadConfig (str "config.yaml") ∧
    loadConfig (str "prod.yaml")
      = { configName := str "config", configType := str "yaml", configPaths := [str "."] } := by
  decide

end DbUpdate
